import Mathlib

/-!
Verification development for the voice-voice-workflow repository.

Strings are modelled as lists of characters (`Str`).  Python's default
`str.strip` whitespace set is modelled by its ASCII part (space, tab,
newline, carriage return, vertical tab, form feed); none of the texts
handled by the pipeline under study contain the exotic Unicode spaces,
and no claim depends on them.
-/

abbrev Str := List Char

/-- Conversion from a Lean string literal to the `Str` model. -/
def str (s : String) : Str := s.data

/-- ASCII part of Python's default whitespace set used by `str.strip`. -/
def pyIsSpace (c : Char) : Bool :=
  c = ' ' || c = '\t' || c = '\n' || c = '\x0d' || c = '\x0b' || c = '\x0c'

/-- Python `str.lstrip()`. -/
def lstrip (s : Str) : Str := s.dropWhile pyIsSpace

/-- Python `str.rstrip()`. -/
def rstrip (s : Str) : Str := (s.reverse.dropWhile pyIsSpace).reverse

/-- Python `str.strip()`. -/
def strip (s : Str) : Str := rstrip (lstrip s)

/-- Delete every whitespace character (used to compare texts up to whitespace). -/
def removeWS (s : Str) : Str := s.filter (fun c => !pyIsSpace c)

/-- Concatenation of a list of strings. -/
def joinStr (l : List Str) : Str := l.flatten

/-! ## Sentencer (gateway.py, `VoiceGateway._stream_llm_to_tts`)

The Python code keeps a `text_buffer`, appends each received LLM chunk,
then loops over `sentence_delimiters = ["।", "?", "!", ".", "\n"]`; at the
first delimiter (in that list order) contained in the buffer it performs
`text_buffer.split(delimiter, 1)`, emits `parts[0] + delimiter` (stripped)
to TTS, keeps `parts[1]` as the new buffer and `break`s out of the loop.
-/

/-- `sentence_delimiters = ["।", "?", "!", ".", "\n"]` (Hindi and English). -/
def sentence_delimiters : List Char := ['।', '?', '!', '.', '\n']

/-- One pass of the delimiter loop over the current buffer: if some
delimiter (searched in list order) occurs in the buffer, return the
stripped sentence `parts[0] + delimiter` together with the retained
remainder `parts[1]`; otherwise keep the buffer. -/
def stepBuf (buf : Str) : Option Str × Str :=
  match sentence_delimiters.find? (fun d => buf.contains d) with
  | some d =>
      (some (strip (buf.takeWhile (fun c => c != d) ++ [d])),
       (buf.dropWhile (fun c => c != d)).tail)
  | none => (none, buf)

/-- Buffer evolution for one received LLM chunk: append, then run the
delimiter loop once. -/
def processChunk (buf chunk : Str) : Option Str × Str := stepBuf (buf ++ chunk)

/-- The `_stream_tts` entry guard: an empty text produces no audio. -/
def ttsEmit (tts : Str → List (List Nat)) (s : Str) : List (List Nat) :=
  if s = [] then [] else tts s

/-- The sequence of sentence strings actually submitted to the TTS service
during one turn, given the LLM chunks (the final non-whitespace remainder
is flushed when the stream ends).  `_stream_tts` drops empty texts, so
whitespace-only split results are not submitted. -/
def sentRun (buf : Str) : List Str → List Str
  | [] => if strip buf = [] then [] else [strip buf]
  | c :: cs =>
      match processChunk buf c with
      | (some s, rest) => if s = [] then sentRun rest cs else s :: sentRun rest cs
      | (none, rest) => sentRun rest cs

/-- Items yielded by the `_stream_llm_to_tts` generator, in order:
text chunks (`yield None, chunk`) and audio chunks (`yield audio, None`). -/
inductive Item where
  | text (s : Str)
  | audio (a : List Nat)
deriving DecidableEq

/-- The full generator: for each LLM chunk, yield the text chunk, then the
audio of the sentence completed by that chunk (if any); at end of stream,
flush the non-whitespace remainder through TTS. -/
def streamRun (tts : Str → List (List Nat)) (buf : Str) : List Str → List Item
  | [] =>
      if strip buf = [] then []
      else (ttsEmit tts (strip buf)).map Item.audio
  | c :: cs =>
      match processChunk buf c with
      | (some s, rest) =>
          Item.text c :: (ttsEmit tts s).map Item.audio ++ streamRun tts rest cs
      | (none, rest) => Item.text c :: streamRun tts rest cs

example : processChunk (str ("")) (str (" a. b?")) =
    (some (str ("a. b?")), str ("")) := by decide

example : sentRun (str ("")) [str ("Hi. "), str ("Bye.")] =
    [str ("Hi."), str ("Bye.")] := by decide

/-! ## Per-turn pipeline (gateway.py, `VoiceGateway._process_audio_stream`)

The handler sets `state = LISTENING`, sends a status frame, runs ASR, and
on an empty (or whitespace-only) transcript returns early.  Otherwise it
appends the user message to the history, sends the final transcript, sends
an LLM status frame, forwards the generator items (text chunks as
`response_text{is_final:false}` frames when non-empty, audio chunks as
binary frames when non-empty), appends the assistant message, and sends
the terminal `response_text{"",is_final:true}` and `status{idle}` frames.
Any exception in the pipeline is caught at the turn boundary, converted to
a single `error` frame whose message is the exception text, and the state
is set to IDLE.

Exceptions are embedded as data: the ASR stage either returns a transcript
or fails with a message, and the streaming stage either completes or fails
with a message after a prefix of the generator items has been forwarded.
-/

/-- `SessionState` values reachable inside one turn. -/
inductive SessionState where
  | listening
  | processing
  | speaking
  | idle
deriving DecidableEq

/-- A conversation-history entry `{role, content}`. -/
structure ChatMsg where
  role : Str
  content : Str
deriving DecidableEq

/-- Server frames emitted during one turn over the WebSocket. -/
inductive Frame where
  | statusAsr
  | statusLlm
  | statusIdle
  | transcript (text : Str) (final : Bool)
  | responseText (text : Str) (final : Bool)
  | audio (a : List Nat)
  | errorFrame (msg : Str)
deriving DecidableEq

/-- Rendering of one generator item to frames: empty text chunks and
empty audio chunks are skipped (`if text_chunk:` / `if audio_chunk:`). -/
def renderItem : Item → List Frame
  | Item.text s => if s = [] then [] else [Frame.responseText s false]
  | Item.audio a => if a = [] then [] else [Frame.audio a]

/-- The text chunks of a generator item list (what `full_response`
accumulates). -/
def textOf (items : List Item) : List Str :=
  items.filterMap (fun i => match i with | Item.text s => some s | _ => none)

/-- The audio chunks of a frame list, in emission order. -/
def audioFrames (frames : List Frame) : List (List Nat) :=
  frames.filterMap (fun f => match f with | Frame.audio a => some a | _ => none)

/-- The error-frame messages of a frame list. -/
def errorMsgs (frames : List Frame) : List Str :=
  frames.filterMap (fun f => match f with | Frame.errorFrame m => some m | _ => none)

/-- Result of one turn: frames sent to the client, final session state,
updated conversation history. -/
structure TurnResult where
  frames : List Frame
  state : SessionState
  history : List ChatMsg
deriving DecidableEq

/-- One execution of `_process_audio_stream`.
`asr` is the ASR outcome (`.error m` = exception with message `m`);
`streamErr = some (n, m)` means the LLM/TTS streaming stage raised an
exception with message `m` after `n` generator items were forwarded. -/
def runTurn (tts : Str → List (List Nat)) (asr : Except Str Str)
    (chunks : List Str) (streamErr : Option (Nat × Str))
    (history : List ChatMsg) : TurnResult :=
  match asr with
  | Except.error m =>
      ⟨[Frame.statusAsr, Frame.errorFrame m], SessionState.idle, history⟩
  | Except.ok transcript =>
      if strip transcript = [] then
        ⟨[Frame.statusAsr], SessionState.listening, history⟩
      else
        let history1 := history ++ [⟨str ("user"), transcript⟩]
        let head := [Frame.statusAsr, Frame.transcript transcript true,
                     Frame.statusLlm]
        let items := streamRun tts [] chunks
        match streamErr with
        | none =>
            let fullResponse := joinStr (textOf items)
            ⟨head ++ (items.flatMap renderItem) ++
               [Frame.responseText [] true, Frame.statusIdle],
             SessionState.idle,
             history1 ++ [⟨str ("assistant"), fullResponse⟩]⟩
        | some (n, m) =>
            ⟨head ++ ((items.take n).flatMap renderItem) ++ [Frame.errorFrame m],
             SessionState.idle, history1⟩

/-- Conversation-history growth over `k` completed ordinary turns (a fixed
non-empty transcript and a one-sentence reply; the gateway never trims the
session's `conversation_history`). -/
def histAfterTurns : Nat → List ChatMsg
  | 0 => []
  | k + 1 =>
      (runTurn (fun _ => []) (Except.ok (str ("hi"))) [str ("ok.")] none
        (histAfterTurns k)).history

example : (histAfterTurns 2).length = 4 := by decide

/-! ## LLM client (llm_client.py, `LLMClient`)

`_build_messages` prepends the language-selected system prompt and keeps
only the slice `conversation_history[-max_history_turns * 2:]`.
`_get_cache_key` hashes `json.dumps(messages, sort_keys=True)` with
SHA-256 and keeps the first 16 hex characters.  `generate` returns the
cached response (with `finish_reason="cached"`, zero tokens) when the
cache lookup is truthy, otherwise calls the backend and writes the cache.
-/

/-- `settings.max_history_turns` (llm-service config default). -/
def max_history_turns : Nat := 10

/-- `settings.system_prompt_hindi` (llm-service config default). -/
def system_prompt_hindi : Str :=
  str ("आप एक सहायक AI असिस्टेंट हैं जो हिंदी में बात करते हैं। \nआप संक्षिप्त, सटीक और मददगार जवाब देते हैं। \nकृपया अपने जवाब को बातचीत के लिए उपयुक्त रखें - बहुत लंबा नहीं।\nअगर उपयोगकर्ता अंग्रेजी में बात करें तो आप अंग्रेजी में जवाब दे सकते हैं।")

/-- `settings.system_prompt_english` (llm-service config default). -/
def system_prompt_english : Str :=
  str ("You are a helpful AI assistant that communicates naturally.\nYou provide concise, accurate, and helpful responses.\nKeep your responses conversational and not too long.\nIf the user speaks in Hindi, respond in Hindi.")

/-- `LLMClient._get_system_prompt`: Hindi prompt iff the language code
starts with `"hi"`. -/
def get_system_prompt (language : Str) : Str :=
  if language.take 2 = str ("hi") then system_prompt_hindi
  else system_prompt_english

/-- Python's tail slice `l[-k:]`.  For `k = 0` this is the whole list
(`l[-0:] = l[0:]`). -/
def pyTailSlice (k : Nat) (l : List ChatMsg) : List ChatMsg :=
  if k = 0 then l else l.drop (l.length - k)

/-- `LLMClient._build_messages`: system prompt followed by the last
`max_history_turns * 2` history entries. -/
def build_messages (conversation_history : List ChatMsg) (language : Str) :
    List ChatMsg :=
  ⟨str ("system"), get_system_prompt language⟩ ::
    pyTailSlice (max_history_turns * 2) conversation_history

/-- Lowercase hexadecimal digit. -/
def hexLower (n : Nat) : Char :=
  Char.ofNat (if n < 10 then 48 + n else 87 + n)

/-- Four lowercase hex digits of a 16-bit value. -/
def u4hex (n : Nat) : Str :=
  [hexLower (n / 4096 % 16), hexLower (n / 256 % 16),
   hexLower (n / 16 % 16), hexLower (n % 16)]

/-- A `\uXXXX` escape. -/
def uEscape (n : Nat) : Str := ['\\', 'u'] ++ u4hex n

/-- Escaping of one character by `json.dumps` (default `ensure_ascii=True`):
two-character escapes for the JSON specials, `\uXXXX` for other control
and all non-ASCII characters (surrogate pairs beyond the BMP). -/
def jsonEscapeChar (c : Char) : Str :=
  if c = '"' then ['\\', '"']
  else if c = '\\' then ['\\', '\\']
  else if c = '\n' then ['\\', 'n']
  else if c = '\x0d' then ['\\', 'r']
  else if c = '\t' then ['\\', 't']
  else if c.toNat = 8 then ['\\', 'b']
  else if c.toNat = 12 then ['\\', 'f']
  else if c.toNat < 32 then uEscape c.toNat
  else if c.toNat > 126 then
    if c.toNat ≤ 65535 then uEscape c.toNat
    else uEscape (55296 + (c.toNat - 65536) / 1024) ++
         uEscape (56320 + (c.toNat - 65536) % 1024)
  else [c]

/-- JSON string literal. -/
def jsonStr (s : Str) : Str := '"' :: s.flatMap jsonEscapeChar ++ ['"']

/-- JSON object for one message, keys sorted (`sort_keys=True`), default
separators `", "` and `": "`. -/
def msgJson (m : ChatMsg) : Str :=
  ['{'] ++ jsonStr (str ("content")) ++ [':', ' '] ++ jsonStr m.content ++
  [',', ' '] ++ jsonStr (str ("role")) ++ [':', ' '] ++ jsonStr m.role ++ ['}']

/-- `json.dumps(messages, sort_keys=True)`. -/
def messagesJson (l : List ChatMsg) : Str :=
  '[' :: (List.intersperse [',', ' '] (l.map msgJson)).flatten ++ [']']

example : messagesJson [] = str ("[]") := by decide

example : (messagesJson [⟨str ("user"), str ("hi")⟩]).map Char.toNat =
    [91, 123, 34, 99, 111, 110, 116, 101, 110, 116, 34, 58, 32, 34, 104, 105,
     34, 44, 32, 34, 114, 111, 108, 101, 34, 58, 32, 34, 117, 115, 101, 114,
     34, 125, 93] := by decide

/-! ### SHA-256 (as used by `hashlib.sha256`)

Standard FIPS 180-4 SHA-256 over byte lists, with 32-bit words as `Nat`
reduced mod `2^32`. -/

/-- Truncation to 32 bits. -/
def m32 (x : Nat) : Nat := x % 4294967296

/-- Right rotation of a 32-bit word. -/
def rotr32 (n x : Nat) : Nat := m32 ((x >>> n) + ((x % 2 ^ n) <<< (32 - n)))

/-- 32-bit complement. -/
def not32 (x : Nat) : Nat := 4294967295 - x

def bigSigma0 (x : Nat) : Nat := rotr32 2 x ^^^ rotr32 13 x ^^^ rotr32 22 x

def bigSigma1 (x : Nat) : Nat := rotr32 6 x ^^^ rotr32 11 x ^^^ rotr32 25 x

def smallSigma0 (x : Nat) : Nat := rotr32 7 x ^^^ rotr32 18 x ^^^ (x >>> 3)

def smallSigma1 (x : Nat) : Nat := rotr32 17 x ^^^ rotr32 19 x ^^^ (x >>> 10)

def chFn (x y z : Nat) : Nat := (x &&& y) ^^^ (not32 x &&& z)

def majFn (x y z : Nat) : Nat := (x &&& y) ^^^ (x &&& z) ^^^ (y &&& z)

/-- SHA-256 round constants. -/
def sha256K : List Nat :=
  [1116352408, 1899447441, 3049323471, 3921009573, 961987163,
   1508970993, 2453635748, 2870763221, 3624381080, 310598401,
   607225278, 1426881987, 1925078388, 2162078206, 2614888103,
   3248222580, 3835390401, 4022224774, 264347078, 604807628,
   770255983, 1249150122, 1555081692, 1996064986, 2554220882,
   2821834349, 2952996808, 3210313671, 3336571891, 3584528711,
   113926993, 338241895, 666307205, 773529912, 1294757372,
   1396182291, 1695183700, 1986661051, 2177026350, 2456956037,
   2730485921, 2820302411, 3259730800, 3345764771, 3516065817,
   3600352804, 4094571909, 275423344, 430227734, 506948616,
   659060556, 883997877, 958139571, 1322822218, 1537002063,
   1747873779, 1955562222, 2024104815, 2227730452, 2361852424,
   2428436474, 2756734187, 3204031479, 3329325298]

/-- SHA-256 initial hash value. -/
def sha256H0 : List Nat :=
  [1779033703, 3144134277, 1013904242,
   2773480762, 1359893119, 2600822924,
   528734635, 1541459225]

/-- Big-endian 8-byte encoding. -/
def be64 (n : Nat) : List Nat :=
  [n >>> 56 % 256, n >>> 48 % 256, n >>> 40 % 256, n >>> 32 % 256,
   n >>> 24 % 256, n >>> 16 % 256, n >>> 8 % 256, n % 256]

/-- SHA-256 padding of a byte message. -/
def sha256Pad (msg : List Nat) : List Nat :=
  msg ++ 128 :: List.replicate ((119 - msg.length % 64) % 64) 0 ++
    be64 (8 * msg.length)

/-- Split into 64-byte blocks (fuel = list length). -/
def groupNAux : Nat → List Nat → List (List Nat)
  | 0, _ => []
  | _, [] => []
  | fuel + 1, l => l.take 64 :: groupNAux fuel (l.drop 64)

def group64 (l : List Nat) : List (List Nat) := groupNAux l.length l

/-- The sixteen big-endian 32-bit words of one 64-byte block. -/
def words16 (block : List Nat) : List Nat :=
  (List.range 16).map (fun i =>
    block.getD (4 * i) 0 <<< 24 + block.getD (4 * i + 1) 0 <<< 16 +
    block.getD (4 * i + 2) 0 <<< 8 + block.getD (4 * i + 3) 0)

/-- Message-schedule extension: append one word per step. -/
def extendW : Nat → List Nat → List Nat
  | 0, w => w
  | k + 1, w =>
      extendW k (w ++ [m32 (smallSigma1 (w.getD (w.length - 2) 0) +
        w.getD (w.length - 7) 0 + smallSigma0 (w.getD (w.length - 15) 0) +
        w.getD (w.length - 16) 0)])

/-- One compression round on the state `[a,b,c,d,e,f,g,h]`. -/
def sha256Round (kw : Nat) (st : List Nat) : List Nat :=
  let a := st.getD 0 0
  let b := st.getD 1 0
  let c := st.getD 2 0
  let d := st.getD 3 0
  let e := st.getD 4 0
  let f := st.getD 5 0
  let g := st.getD 6 0
  let hh := st.getD 7 0
  let t1 := m32 (hh + bigSigma1 e + chFn e f g + kw)
  let t2 := m32 (bigSigma0 a + majFn a b c)
  [m32 (t1 + t2), a, b, c, m32 (d + t1), e, f, g]

/-- Compression of one 64-byte block. -/
def sha256Block (hs : List Nat) (block : List Nat) : List Nat :=
  let ws := extendW 48 (words16 block)
  let kws := (List.range 64).map (fun i => m32 (ws.getD i 0 + sha256K.getD i 0))
  let fin := kws.foldl (fun st kw => sha256Round kw st) hs
  (List.range 8).map (fun i => m32 (hs.getD i 0 + fin.getD i 0))

/-- SHA-256 digest (32 bytes) of a byte message. -/
def sha256 (msg : List Nat) : List Nat :=
  ((group64 (sha256Pad msg)).foldl sha256Block sha256H0).flatMap
    (fun w => [w >>> 24 % 256, w >>> 16 % 256, w >>> 8 % 256, w % 256])

/-- Lowercase hex digest of a byte list. -/
def hexdigest (bytes : List Nat) : Str :=
  bytes.flatMap (fun b => [hexLower (b / 16 % 16), hexLower (b % 16)])

set_option maxRecDepth 8000 in
example : hexdigest (sha256 []) =
    str ("e3b0c44298fc1c149afbf4c8996fb92427ae41e4649b934ca495991b7852b855") := by
  decide

set_option maxRecDepth 8000 in
example : hexdigest (sha256 [97, 98, 99]) =
    str ("ba7816bf8f01cfea414140de5dae2223b00361a396177a9cb410ff61f20015ad") := by
  decide

/-- `LLMClient._get_cache_key`: `"llm_cache:"` followed by the first 16 hex
characters of the SHA-256 of the canonical-JSON-serialized messages list
(the JSON text is pure ASCII after escaping, so its UTF-8 encoding is the
list of code points). -/
def get_cache_key (messages : List ChatMsg) : Str :=
  str ("llm_cache:") ++
    (hexdigest (sha256 ((messagesJson messages).map Char.toNat))).take 16

set_option maxRecDepth 8000 in
example : get_cache_key [⟨str ("system"), str ("sys")⟩, ⟨str ("user"), str ("hi")⟩] =
    str ("llm_cache:1cc750b8076297c3") := by decide

/-- `LLMClient._check_cache`: `None` when the Redis client is absent or the
cache is disabled, otherwise the stored value for the key.  (A Redis read
error also degrades to `None`; a failing store is modelled by a store
returning `none`.) -/
def check_cache (enable_cache : Bool) (redis : Option (Str → Option Str))
    (key : Str) : Option Str :=
  match redis with
  | none => none
  | some store => if enable_cache then store key else none

/-- `GenerationResult` (the wall-clock `latency_ms` field is not modelled). -/
structure GenerationResult where
  text : Str
  tokens_generated : Nat
  finish_reason : Str
  cached : Bool
deriving DecidableEq

/-- Observable outcome of `LLMClient.generate`: the returned result,
whether the LLM backend was called, and the cache write request (if any). -/
structure GenerateOutcome where
  result : GenerationResult
  backendCalled : Bool
  cacheWrite : Option (Str × Str)
deriving DecidableEq

/-- `LLMClient.generate` (non-streaming).  `backend` maps the messages list
to the parsed backend reply `(content, completion_tokens, finish_reason)`.
The Python guard is `if cached:`, which treats the empty string as a miss. -/
def generate (enable_cache : Bool) (redis : Option (Str → Option Str))
    (backend : List ChatMsg → Str × Nat × Str)
    (conversation_history : List ChatMsg) (language : Str) : GenerateOutcome :=
  let messages := build_messages conversation_history language
  let cache_key := get_cache_key messages
  let miss : GenerateOutcome :=
    let r := backend messages
    let write := if redis.isSome && enable_cache
      then some (cache_key, r.1) else none
    ⟨⟨r.1, r.2.1, r.2.2, false⟩, true, write⟩
  match check_cache enable_cache redis cache_key with
  | some c => if c = [] then miss else ⟨⟨c, 0, str ("cached"), true⟩, false, none⟩
  | none => miss

/-! ## Blocking-iterator bridge (clients/asr.py, `consume_riva_responses`)

The worker thread iterates the blocking Riva response generator and posts
`(transcript, is_final)` pairs to an asyncio queue.  Exceptions are caught,
logged and counted; the `finally` block posts the `None` sentinel in every
case.  The cooperative consumer pops items until it sees `None`.  The
provider iterator is modelled as the responses it yields plus an optional
exception raised after them. -/

/-- One Riva streaming result: the transcripts of its alternatives and the
finality flag of the result. -/
structure RivaResult where
  alternatives : List Str
  final : Bool
deriving DecidableEq

/-- One Riva streaming response. -/
structure RivaResponse where
  results : List RivaResult
deriving DecidableEq

/-- Items the worker posts for one result: skip results without
alternatives, take the first alternative's transcript, skip empty
transcripts. -/
def postsOfResult (r : RivaResult) : List (Str × Bool) :=
  if r.alternatives = [] then []
  else if r.alternatives.headD [] = [] then []
  else [(r.alternatives.headD [], r.final)]

/-- Items the worker posts for one response (`if not response.results:
continue` then the inner result loop). -/
def postsOfResponse (resp : RivaResponse) : List (Str × Bool) :=
  if resp.results = [] then [] else resp.results.flatMap postsOfResult

/-- The queue contents produced by one run of `consume_riva_responses`:
`yielded` are the responses the provider iterator produced before finishing
normally (`err = none`) or raising (`err = some msg`).  The `except` block
only logs and counts; the `finally` block posts the `None` sentinel. -/
def workerRun (yielded : List RivaResponse) (err : Option Str) :
    List (Option (Str × Bool)) :=
  let posted := (yielded.flatMap postsOfResponse).map some
  match err with
  | some _ => posted ++ [none]
  | none => posted ++ [none]

/-- The cooperative consumer loop: pop until the `None` sentinel. -/
def consumeQueue : List (Option (Str × Bool)) → List (Str × Bool)
  | [] => []
  | none :: _ => []
  | some x :: rest => x :: consumeQueue rest

/-! ## TTS connection pool (tts_client.py, `TTSConnectionPool`)

`_available` is an unbounded `asyncio.Queue`; `acquire` pops from the
front (blocking on empty, modelled as `none`), `release` unconditionally
appends.  Clients are identified by index. -/

structure TTSConnectionPool where
  pool_size : Nat
  clients : List Nat
  available : List Nat
  initialized : Bool
deriving DecidableEq

/-- `TTSConnectionPool.initialize` on a fresh pool: `pool_size` connected
clients, all available. -/
def initPool (pool_size : Nat) : TTSConnectionPool :=
  ⟨pool_size, List.range pool_size, List.range pool_size, true⟩

/-- `TTSConnectionPool.acquire`: `await self._available.get()`; `none`
models blocking on an empty queue. -/
def acquire (p : TTSConnectionPool) : Option (Nat × TTSConnectionPool) :=
  match p.available with
  | [] => none
  | c :: rest => some (c, { p with available := rest })

/-- `TTSConnectionPool.release`: `await self._available.put(client)`. -/
def release (client : Nat) (p : TTSConnectionPool) : TTSConnectionPool :=
  { p with available := p.available ++ [client] }

/-! ## Load-test statistics (tests/load/collector.py, `AggregateStats`)

Latency values are modelled as exact rationals (the claim under study is
about indices and the empty case, which are unaffected by floating-point
rounding: the Python expressions `int(n * p)` for `p ∈ {0.90, 0.95, 0.99}`
agree with `⌊n·p⌋` for every list length reachable in a load test, and
both are `< n`). -/

/-- The percentile index `int(n * num / 100)`. -/
def pctIdx (n num : Nat) : Nat := n * num / 100

/-- Sample mean. -/
def qMean (values : List ℚ) : ℚ := values.sum / values.length

/-- `statistics.median` of a sorted list. -/
def qMedianSorted (s : List ℚ) : ℚ :=
  if s.length % 2 = 1 then s.getD (s.length / 2) 0
  else (s.getD (s.length / 2 - 1) 0 + s.getD (s.length / 2) 0) / 2

/-- Sample variance; `statistics.stdev` is its square root, which is
irrational in general, so the model carries the variance (it is zero
exactly when the stdev is, and no claim involves this field). -/
def qVariance (values : List ℚ) : ℚ :=
  -- Uses Finset-free fold over the list.
  (values.map (fun x => (x - qMean values) ^ 2)).sum / (values.length - 1 : ℚ)

structure AggregateStats where
  count : Nat
  min : ℚ
  max : ℚ
  mean : ℚ
  median : ℚ
  p90 : ℚ
  p95 : ℚ
  p99 : ℚ
  stddev_sq : ℚ
deriving DecidableEq

/-- `AggregateStats()` — the all-zero record returned for no data. -/
def AggregateStats.zero : AggregateStats := ⟨0, 0, 0, 0, 0, 0, 0, 0, 0⟩

/-- `AggregateStats.from_values`. -/
def AggregateStats.from_values (values : List ℚ) : AggregateStats :=
  if values = [] then AggregateStats.zero
  else
    let s := values.insertionSort (fun a b => a ≤ b)
    let n := values.length
    { count := n
      min := s.getD 0 0
      max := s.getD (n - 1) 0
      mean := qMean values
      median := qMedianSorted s
      p90 := if 1 < n then s.getD (pctIdx n 90) 0 else s.getD 0 0
      p95 := if 1 < n then s.getD (pctIdx n 95) 0 else s.getD 0 0
      p99 := if 1 < n then s.getD (pctIdx n 99) 0 else s.getD 0 0
      stddev_sq := if 1 < n then qVariance values else 0 }

example : (AggregateStats.from_values [3, 1, 2]).count = 3 ∧
    (AggregateStats.from_values [3, 1, 2]).min = 1 ∧
    (AggregateStats.from_values [3, 1, 2]).max = 3 ∧
    (AggregateStats.from_values [3, 1, 2]).p90 = 3 := by
  refine ⟨?_, ?_, ?_, ?_⟩ <;> decide

/-! ## Helper lemmas -/

lemma removeWS_append (a b : Str) : removeWS (a ++ b) = removeWS a ++ removeWS b := by
  simp [removeWS, List.filter_append]

lemma removeWS_dropWhile (l : Str) :
    removeWS (l.dropWhile pyIsSpace) = removeWS l := by
  induction l with
  | nil => rfl
  | cons c l ih =>
    by_cases hc : pyIsSpace c
    · simpa [List.dropWhile_cons, hc, removeWS] using ih
    · simp [List.dropWhile_cons, hc]

lemma removeWS_reverse (l : Str) : removeWS l.reverse = (removeWS l).reverse := by
  simp [removeWS, List.filter_reverse]

lemma removeWS_rstrip (s : Str) : removeWS (rstrip s) = removeWS s := by
  rw [rstrip, removeWS_reverse, removeWS_dropWhile, removeWS_reverse,
    List.reverse_reverse]

lemma removeWS_strip (s : Str) : removeWS (strip s) = removeWS s := by
  rw [strip, removeWS_rstrip, lstrip, removeWS_dropWhile]

lemma removeWS_of_strip_nil {s : Str} (h : strip s = []) : removeWS s = [] := by
  rw [← removeWS_strip, h]; rfl

lemma contains_true_iff {l : Str} {c : Char} : l.contains c = true ↔ c ∈ l := by
  simp [List.contains_iff_exists_mem_beq, beq_iff_eq]

/-- Decomposition produced by one successful pass of the delimiter loop:
the buffer splits at the first occurrence of the selected delimiter `d`,
`d` is the first delimiter in list order contained in the buffer, and the
emitted sentence is the stripped prefix-with-delimiter. -/
lemma stepBuf_some {buf s rest : Str} (h : stepBuf buf = (some s, rest)) :
    ∃ pre d ds₁ ds₂,
      sentence_delimiters = ds₁ ++ d :: ds₂ ∧
      (∀ d' ∈ ds₁, d' ∉ buf) ∧
      buf = pre ++ d :: rest ∧ (∀ c ∈ pre, c ≠ d) ∧
      s = strip (pre ++ [d]) := by
  unfold stepBuf at h
  cases hf : sentence_delimiters.find? (fun d => buf.contains d) with
  | none => rw [hf] at h; simp at h
  | some d =>
    rw [hf] at h
    simp only [Prod.mk.injEq, Option.some.injEq] at h
    obtain ⟨hs, hrest⟩ := h
    obtain ⟨hpd, ds₁, ds₂, hdec, hfail⟩ := List.find?_eq_some.mp hf
    have hmem : d ∈ buf := contains_true_iff.mp hpd
    -- first-occurrence decomposition of the buffer
    have hbuf : buf = buf.takeWhile (fun c => c != d) ++
        d :: (buf.dropWhile (fun c => c != d)).tail := by
      have hne : buf.dropWhile (fun c => c != d) ≠ [] := by
        intro hnil
        have := List.dropWhile_eq_nil_iff.mp hnil d hmem
        simp at this
      have hhead := List.head_dropWhile_not (fun c => c != d) buf hne
      have hhd : (buf.dropWhile (fun c => c != d)).head hne = d := by
        simpa using hhead
      have hdt := List.head_cons_tail (buf.dropWhile (fun c => c != d)) hne
      rw [hhd] at hdt
      rw [hdt, List.takeWhile_append_dropWhile]
    refine ⟨buf.takeWhile (fun c => c != d), d, ds₁, ds₂, hdec, ?_, ?_, ?_, ?_⟩
    · intro d' hd' hmem'
      have h2 : List.contains buf d' = true := contains_true_iff.mpr hmem'
      have h3 := hfail d' hd'
      rw [h2] at h3
      simp at h3
    · rw [← hrest]; exact hbuf
    · intro c hc
      have := List.mem_takeWhile_imp hc
      simpa using this
    · exact hs.symm

/-- A buffer containing a delimiter always splits. -/
lemma stepBuf_trigger {buf : Str} (h : ∃ d ∈ sentence_delimiters, d ∈ buf) :
    (stepBuf buf).1.isSome := by
  obtain ⟨d, hd, hmem⟩ := h
  unfold stepBuf
  cases hf : sentence_delimiters.find? (fun d => buf.contains d) with
  | none =>
    exfalso
    exact absurd (contains_true_iff.mpr hmem) (by simpa using List.find?_eq_none.mp hf d hd)
  | some d' => rfl

lemma stepBuf_none {buf r : Str} (h : stepBuf buf = (none, r)) : r = buf := by
  unfold stepBuf at h
  cases hf : sentence_delimiters.find? (fun d => buf.contains d) with
  | none => rw [hf] at h; exact (Prod.mk.injEq .. ▸ h).2.symm
  | some d => rw [hf] at h; simp at h

/-- The audio chunks of a generator item list, in order. -/
def audioItems (items : List Item) : List (List Nat) :=
  items.filterMap (fun i => match i with | Item.audio a => some a | _ => none)

lemma removeWS_nil : removeWS [] = [] := rfl

lemma audioItems_nil : audioItems [] = [] := rfl

lemma audioItems_cons_text (c : Str) (rest : List Item) :
    audioItems (Item.text c :: rest) = audioItems rest := by
  simp [audioItems, List.filterMap_cons]

lemma audioItems_append (a b : List Item) :
    audioItems (a ++ b) = audioItems a ++ audioItems b := by
  simp [audioItems, List.filterMap_append]

lemma audioItems_map_audio (l : List (List Nat)) :
    audioItems (l.map Item.audio) = l := by
  induction l with
  | nil => rfl
  | cons a l ih => simp [audioItems, List.filterMap_cons] at ih ⊢; exact ih

lemma textOf_cons_text (c : Str) (rest : List Item) :
    textOf (Item.text c :: rest) = c :: textOf rest := by
  simp [textOf, List.filterMap_cons]

lemma textOf_append (a b : List Item) :
    textOf (a ++ b) = textOf a ++ textOf b := by
  simp [textOf, List.filterMap_append]

lemma textOf_map_audio (l : List (List Nat)) : textOf (l.map Item.audio) = [] := by
  induction l with
  | nil => rfl
  | cons a l ih => simp [textOf, List.filterMap_cons, ih]

lemma sentRun_removeWS (chunks : List Str) : ∀ buf : Str,
    removeWS (joinStr (sentRun buf chunks)) = removeWS (buf ++ joinStr chunks) := by
  induction chunks with
  | nil =>
    intro buf
    simp only [sentRun, joinStr]
    by_cases h : strip buf = []
    · simp [h, removeWS_nil, removeWS_of_strip_nil h]
    · simp [h, removeWS_strip]
  | cons c cs ih =>
    intro buf
    simp only [joinStr] at ih ⊢
    rcases hp : processChunk buf c with ⟨o, rest⟩
    cases o with
    | none =>
      have hr : rest = buf ++ c := stepBuf_none hp
      subst hr
      simp only [sentRun, hp, List.flatten_cons]
      rw [ih, ← List.append_assoc]
    | some s =>
      obtain ⟨pre, d, _, _, _, _, hsplit, _, hsent⟩ := stepBuf_some hp
      have hws : removeWS s = removeWS (pre ++ [d]) := by
        rw [hsent, removeWS_strip]
      have hbufc : removeWS (buf ++ c) = removeWS (pre ++ [d]) ++ removeWS rest := by
        rw [hsplit]
        have : pre ++ d :: rest = (pre ++ [d]) ++ rest := by simp
        rw [this, removeWS_append]
      have hgoal : removeWS (buf ++ (c :: cs).flatten) =
          removeWS (pre ++ [d]) ++ removeWS rest ++ removeWS cs.flatten := by
        rw [List.flatten_cons, ← List.append_assoc, removeWS_append, hbufc]
      simp only [sentRun, hp]
      by_cases hs : s = []
      · rw [if_pos hs, hgoal, ih]
        have hnil : removeWS (pre ++ [d]) = [] := by rw [← hws, hs]; rfl
        rw [hnil, removeWS_append]
        simp
      · rw [if_neg hs, hgoal, List.flatten_cons, removeWS_append, ih,
          removeWS_append, hws, List.append_assoc]

lemma streamRun_audio (tts : Str → List (List Nat)) (chunks : List Str) :
    ∀ buf : Str, audioItems (streamRun tts buf chunks) =
      (sentRun buf chunks).flatMap (ttsEmit tts) := by
  induction chunks with
  | nil =>
    intro buf
    by_cases h : strip buf = []
    · simp [streamRun, sentRun, h, audioItems_nil]
    · simp [streamRun, sentRun, h, audioItems_map_audio]
  | cons c cs ih =>
    intro buf
    rcases hp : processChunk buf c with ⟨o, rest⟩
    cases o with
    | none =>
      simp only [streamRun, sentRun, hp]
      simp only [audioItems_cons_text, ih rest]
    | some s =>
      simp only [streamRun, sentRun, hp]
      simp only [audioItems_cons_text, audioItems_append, audioItems_map_audio,
        ih rest]
      by_cases hs : s = []
      · rw [if_pos hs]
        have he : ttsEmit tts s = [] := by rw [hs]; rfl
        rw [he, List.nil_append]
      · rw [if_neg hs, List.flatMap_cons]

lemma streamRun_text (tts : Str → List (List Nat)) (chunks : List Str) :
    ∀ buf : Str, textOf (streamRun tts buf chunks) = chunks := by
  induction chunks with
  | nil =>
    intro buf
    by_cases h : strip buf = []
    · simp [streamRun, h, textOf]
    · simp [streamRun, h, textOf_map_audio]
  | cons c cs ih =>
    intro buf
    rcases hp : processChunk buf c with ⟨o, rest⟩
    cases o with
    | none =>
      simp only [streamRun, hp]
      simp only [textOf_cons_text, ih rest]
    | some s =>
      simp only [streamRun, hp]
      simp only [textOf_cons_text, textOf_append, textOf_map_audio, ih rest,
        List.nil_append]
      rfl

/-! ## Claim theorems -/

/-- C1 counterexample: for the buffer obtained by appending the chunk
" a. b?" to an empty buffer, the leftmost sentence terminator is '.'
(so the claim predicts submitted text " a." and retained buffer " b?"),
but the code selects '?' — earlier in its delimiter priority list — and
submits the stripped sentence "a. b?" while retaining "". -/
theorem C1_counterexample :
    (str (" a. b?")).find? (fun c => sentence_delimiters.contains c) =
      some '.' ∧
    processChunk [] (str (" a. b?")) = (some (str ("a. b?")), []) ∧
    str ("a. b?") ≠ str (" a.") ∧ ([] : Str) ≠ str (" b?") := by
  decide

/-- C1 (amended): after appending a received chunk, if the buffer contains
any sentence terminator then the code splits; the selected delimiter `d`
is the first one in the priority order of `sentence_delimiters` that
occurs anywhere in the buffer (not the leftmost terminator of the text),
the text submitted to TTS is the prefix up to and including the first
occurrence of `d`, stripped of surrounding whitespace, and the retained
buffer is exactly the remainder after that occurrence. -/
theorem C1_theorem (buf chunk : Str) :
    ((∃ d ∈ sentence_delimiters, d ∈ buf ++ chunk) →
      (processChunk buf chunk).1.isSome) ∧
    (∀ s rest, processChunk buf chunk = (some s, rest) →
      ∃ pre d ds₁ ds₂,
        sentence_delimiters = ds₁ ++ d :: ds₂ ∧
        (∀ d' ∈ ds₁, d' ∉ buf ++ chunk) ∧
        buf ++ chunk = pre ++ d :: rest ∧
        (∀ c ∈ pre, c ≠ d) ∧
        s = strip (pre ++ [d])) :=
  ⟨fun h => stepBuf_trigger h, fun _ _ h => stepBuf_some h⟩

/-- C1 witness: the amended split characterization at the concrete buffer
"a. b?" (the code emits "a. b?" because '?' precedes '.' in the priority
list). -/
theorem C1_witness :
    ∃ pre d ds₁ ds₂,
      sentence_delimiters = ds₁ ++ d :: ds₂ ∧
      (∀ d' ∈ ds₁, d' ∉ ([] : Str) ++ str ("a. b?")) ∧
      ([] : Str) ++ str ("a. b?") = pre ++ d :: [] ∧
      (∀ c ∈ pre, c ≠ d) ∧
      str ("a. b?") = strip (pre ++ [d]) :=
  (C1_theorem [] (str ("a. b?"))).2 (str ("a. b?")) [] (by decide)

/-- C2 counterexample: for the LLM chunks ["Hi. ", "Bye."] (so
T = "Hi. Bye."), the sentences submitted to TTS are ["Hi.", "Bye."]; their
concatenation "Hi.Bye." differs from T even after removing trailing
whitespace from both sides, because stripping each sentence loses the
inter-sentence space. -/
theorem C2_counterexample :
    sentRun [] [str ("Hi. "), str ("Bye.")] = [str ("Hi."), str ("Bye.")] ∧
    rstrip (joinStr (sentRun [] [str ("Hi. "), str ("Bye.")])) ≠
      rstrip (joinStr [str ("Hi. "), str ("Bye.")]) := by
  decide

/-- C2 (amended): for every sequence of LLM chunks with concatenation T,
the concatenation (in emission order) of the sentences submitted to TTS
during the turn — including the final flushed remainder — equals T up to
whitespace: both sides agree after deleting every whitespace character
(each sentence is stripped before submission, so only whitespace adjacent
to sentence boundaries is dropped). -/
theorem C2_theorem (chunks : List Str) :
    removeWS (joinStr (sentRun [] chunks)) = removeWS (joinStr chunks) := by
  have h := sentRun_removeWS chunks []
  simpa using h

/-- C3 counterexample: after 11 completed turns the session's
`conversation_history` holds 22 messages, exceeding
`2 * max_history_turns = 20` — the gateway appends two messages per turn
and never trims the stored list. -/
theorem C3_counterexample :
    (histAfterTurns 11).length = 22 ∧
    ¬ (histAfterTurns 11).length ≤ 2 * max_history_turns := by
  decide

/-- C3 (amended): the session's stored history is unbounded — it has
exactly `2·k` entries after `k` completed turns — while the
`2·max_history_turns` bound holds for the history portion of the message
list built by the LLM service: `_build_messages` keeps the most recent
`min (2·max_history_turns) (length history)` history entries (a suffix of
the history) after the system prompt, so the built list never exceeds
`2·max_history_turns + 1` messages. -/
theorem C3_theorem :
    (∀ k, (histAfterTurns k).length = 2 * k) ∧
    (∀ (h : List ChatMsg) (lang : Str),
      (build_messages h lang).length ≤ 2 * max_history_turns + 1 ∧
      (build_messages h lang).tail.length =
        min (2 * max_history_turns) h.length ∧
      (build_messages h lang).tail <:+ h) := by
  constructor
  · intro k
    induction k with
    | zero => rfl
    | succ k ih =>
      show (runTurn _ _ _ _ (histAfterTurns k)).history.length = _
      rw [runTurn]
      rw [if_neg (by decide : ¬ strip (str ("hi")) = [])]
      simp only [List.length_append, ih, List.length_cons, List.length_nil]
      omega
  · intro h lang
    have hk : max_history_turns * 2 ≠ 0 := by decide
    have htail : (build_messages h lang).tail =
        h.drop (h.length - max_history_turns * 2) := by
      rw [build_messages, List.tail_cons, pyTailSlice, if_neg hk]
    refine ⟨?_, ?_, ?_⟩
    · rw [build_messages, List.length_cons, pyTailSlice, if_neg hk,
        List.length_drop]
      have := Nat.sub_le h.length (max_history_turns * 2)
      omega
    · rw [htail, List.length_drop]
      have hm : max_history_turns = 10 := rfl
      rw [hm, Nat.min_def]
      split <;> omega
    · rw [htail]
      exact List.drop_suffix _ _

/-- C4 counterexample: with ASR returning the whitespace-only transcript
"  ", the turn produces only the ASR status frame — no LLM or TTS frames
and no error frame — but the session state is LISTENING, not IDLE as the
claim states: the early return skips any transition to IDLE. -/
theorem C4_counterexample :
    runTurn (fun _ => [[1]]) (Except.ok (str ("  "))) [str ("ok.")] none [] =
      ⟨[Frame.statusAsr], SessionState.listening, []⟩ ∧
    SessionState.listening ≠ SessionState.idle := by
  decide

/-- C4 (amended): for every turn whose final transcript is empty or
whitespace-only after trimming, the turn ends with no LLM and no TTS
frames, no error frame, and an unchanged history — but the session state
remains LISTENING (the value set on audio arrival); it does not
transition to IDLE. -/
theorem C4_theorem (tts : Str → List (List Nat)) (t : Str)
    (chunks : List Str) (streamErr : Option (Nat × Str))
    (hist : List ChatMsg) (h : strip t = []) :
    runTurn tts (Except.ok t) chunks streamErr hist =
      ⟨[Frame.statusAsr], SessionState.listening, hist⟩ := by
  rw [runTurn, if_pos h]

/-- C4 witness: the amended behaviour at a concrete whitespace
transcript. -/
theorem C4_witness :
    runTurn (fun _ => []) (Except.ok (str ("  "))) [] none [] =
      ⟨[Frame.statusAsr], SessionState.listening, []⟩ :=
  C4_theorem (fun _ => []) (str ("  ")) [] none [] (by decide)

lemma consumeQueue_posts (xs : List (Str × Bool)) :
    consumeQueue (xs.map some ++ [none]) = xs := by
  induction xs with
  | nil => rfl
  | cons x xs ih =>
    simp only [List.map_cons, List.cons_append, consumeQueue]
    rw [show (List.map some xs).append [none] = List.map some xs ++ [none] from rfl,
      ih]

/-- C5 counterexample: a worker whose provider iterator raises immediately
posts exactly the same queue contents as a worker whose iterator ends
normally — only the end sentinel `None` — and the cooperative consumer
completes normally with no items; no exception is re-raised on first (or
any) consumption, contrary to the claim. -/
theorem C5_counterexample :
    workerRun [] (some (str ("boom"))) = workerRun [] none ∧
    workerRun [] (some (str ("boom"))) = [none] ∧
    consumeQueue (workerRun [] (some (str ("boom")))) = [] := by
  decide

/-- C5 (amended): whether the provider iterator finishes normally or
raises, the worker posts the terminating sentinel `None` last (its
`finally` block), so the cooperative consumer always terminates after
consuming exactly the items posted before the sentinel; but a worker
exception is only logged and counted — the queue carries no separate error
sentinel and no exception is re-raised on the cooperative side: the
consumer's output is identical to that of an error-free run. -/
theorem C5_theorem (yielded : List RivaResponse) (err : Option Str) :
    (workerRun yielded err).getLast? = some none ∧
    consumeQueue (workerRun yielded err) = yielded.flatMap postsOfResponse ∧
    consumeQueue (workerRun yielded err) =
      consumeQueue (workerRun yielded none) := by
  have hrun : workerRun yielded err =
      (yielded.flatMap postsOfResponse).map some ++ [none] := by
    cases err <;> rfl
  have hnone : workerRun yielded none =
      (yielded.flatMap postsOfResponse).map some ++ [none] := rfl
  rw [hrun, hnone]
  exact ⟨List.getLast?_concat _, consumeQueue_posts _, rfl⟩

/-- C7 counterexample: in a pool of size 1, acquire the only client, then
release it twice: the available queue holds the client twice — its length
2 exceeds the pool size 1 — and the state after the second release differs
from the state after the first, so release is not idempotent. -/
theorem C7_counterexample :
    acquire (initPool 1) = some (0, ⟨1, [0], [], true⟩) ∧
    release 0 (release 0 ⟨1, [0], [], true⟩) ≠ release 0 ⟨1, [0], [], true⟩ ∧
    (release 0 (release 0 ⟨1, [0], [], true⟩)).available.length = 2 ∧
    ¬ (release 0 (release 0 ⟨1, [0], [], true⟩)).available.length ≤
        (initPool 1).pool_size := by
  decide

/-- C7 (amended): `release` unconditionally enqueues the client: every
call grows the available queue by exactly one entry, so a repeated release
of the same client adds two entries (the pool state is not the same as
after a single release), and nothing prevents the available count from
exceeding the pool size. -/
theorem C7_theorem (p : TTSConnectionPool) (c : Nat) :
    (release c p).available.length = p.available.length + 1 ∧
    (release c (release c p)).available.length = p.available.length + 2 ∧
    release c (release c p) ≠ release c p := by
  refine ⟨by simp [release], by simp [release], ?_⟩
  intro h
  have := congrArg (fun q => q.available.length) h
  simp [release] at this

/-- C6 counterexample: when the cache lookup returns a stored *empty*
response, `generate` does not return it as a cache hit: the Python guard
`if cached:` treats the empty string as falsy, so the backend is called
and the finish reason is the backend's ("stop"), not "cached". -/
theorem C6_counterexample :
    (generate true (some (fun _ => some []))
        (fun _ => (str ("hello"), 5, str ("stop"))) [] (str ("hi-IN"))).result
      = ⟨str ("hello"), 5, str ("stop"), false⟩ ∧
    (generate true (some (fun _ => some []))
        (fun _ => (str ("hello"), 5, str ("stop"))) [] (str ("hi-IN"))).backendCalled
      = true ∧
    str ("stop") ≠ str ("cached") := by
  refine ⟨rfl, rfl, by decide⟩

/-- C6 (amended): every `generate` call whose cache lookup — keyed by
`"llm_cache:"` plus the first 16 hex characters of the SHA-256 of the
canonical-JSON-serialized messages list — returns a stored *non-empty*
response returns exactly that text with `finish_reason = "cached"`,
`tokens_generated = 0` and `cached = true`, sends no request to the LLM
backend and performs no cache write, whatever the backend would answer.
(A stored empty string fails Python's `if cached:` truthiness test and
falls through to the backend.) -/
theorem C6_theorem (redisStore : Str → Option Str)
    (backend : List ChatMsg → Str × Nat × Str)
    (hist : List ChatMsg) (lang : Str) (r : Str)
    (hhit : redisStore (get_cache_key (build_messages hist lang)) = some r)
    (hne : r ≠ []) :
    generate true (some redisStore) backend hist lang =
      ⟨⟨r, 0, str ("cached"), true⟩, false, none⟩ := by
  have hcc : check_cache true (some redisStore)
      (get_cache_key (build_messages hist lang)) = some r := by
    simpa [check_cache] using hhit
  simp only [generate, hcc]
  rw [if_neg hne]

/-- C6 witness: the cache-hit path at a concrete store holding "hi" for
every key. -/
theorem C6_witness :
    generate true (some (fun _ => some (str ("hi")))) (fun _ => ([], 0, []))
        [] (str ("en-US")) =
      ⟨⟨str ("hi"), 0, str ("cached"), true⟩, false, none⟩ :=
  C6_theorem (fun _ => some (str ("hi"))) (fun _ => ([], 0, [])) []
    (str ("en-US")) (str ("hi")) rfl (by decide)

lemma errorMsgs_append (a b : List Frame) :
    errorMsgs (a ++ b) = errorMsgs a ++ errorMsgs b := by
  simp [errorMsgs, List.filterMap_append]

lemma errorMsgs_renderItem (i : Item) : errorMsgs (renderItem i) = [] := by
  cases i with
  | text s => by_cases hs : s = [] <;> simp [renderItem, hs, errorMsgs]
  | audio a => by_cases ha : a = [] <;> simp [renderItem, ha, errorMsgs]

lemma errorMsgs_render (items : List Item) :
    errorMsgs (items.flatMap renderItem) = [] := by
  induction items with
  | nil => rfl
  | cons i rest ih =>
    rw [List.flatMap_cons, errorMsgs_append, errorMsgs_renderItem, ih]
    rfl

/-- C8: every exception raised inside the turn pipeline — in the ASR stage
or during LLM/TTS streaming after any number of forwarded items — is
converted at the turn boundary into exactly one error frame, whose message
is exactly the exception's message string (in particular no stack trace is
attached by the handler), the session state is set to IDLE, and the
session's history is left intact for the next turn. -/
theorem C8_theorem (tts : Str → List (List Nat)) (chunks : List Str)
    (hist : List ChatMsg) (m t : Str) (n : Nat) (h : strip t ≠ []) :
    (errorMsgs (runTurn tts (Except.error m) chunks none hist).frames = [m] ∧
     (runTurn tts (Except.error m) chunks none hist).state = SessionState.idle ∧
     (runTurn tts (Except.error m) chunks none hist).history = hist) ∧
    (errorMsgs (runTurn tts (Except.ok t) chunks (some (n, m)) hist).frames
        = [m] ∧
     (runTurn tts (Except.ok t) chunks (some (n, m)) hist).state
        = SessionState.idle ∧
     (runTurn tts (Except.ok t) chunks (some (n, m)) hist).history
        = hist ++ [⟨str ("user"), t⟩]) := by
  constructor
  · exact ⟨by simp [runTurn, errorMsgs], rfl, rfl⟩
  · have hframes : (runTurn tts (Except.ok t) chunks (some (n, m)) hist) =
        ⟨[Frame.statusAsr, Frame.transcript t true, Frame.statusLlm] ++
           (((streamRun tts [] chunks).take n).flatMap renderItem) ++
           [Frame.errorFrame m],
         SessionState.idle, hist ++ [⟨str ("user"), t⟩]⟩ := by
      simp only [runTurn]
      rw [if_neg h]
    rw [hframes]
    refine ⟨?_, rfl, rfl⟩
    rw [errorMsgs_append, errorMsgs_append, errorMsgs_render]
    simp [errorMsgs]

/-- C8 witness: the error conversion at a concrete TTS-stage exception
("boom") raised after one forwarded item, and a concrete ASR exception. -/
theorem C8_witness :
    (errorMsgs (runTurn (fun _ => [[7]]) (Except.error (str ("boom")))
        [str ("ok.")] none []).frames = [str ("boom")] ∧
     (runTurn (fun _ => [[7]]) (Except.error (str ("boom")))
        [str ("ok.")] none []).state = SessionState.idle ∧
     (runTurn (fun _ => [[7]]) (Except.error (str ("boom")))
        [str ("ok.")] none []).history = []) ∧
    (errorMsgs (runTurn (fun _ => [[7]]) (Except.ok (str ("hi")))
        [str ("ok.")] (some (1, str ("boom"))) []).frames = [str ("boom")] ∧
     (runTurn (fun _ => [[7]]) (Except.ok (str ("hi")))
        [str ("ok.")] (some (1, str ("boom"))) []).state = SessionState.idle ∧
     (runTurn (fun _ => [[7]]) (Except.ok (str ("hi")))
        [str ("ok.")] (some (1, str ("boom"))) []).history
        = [] ++ [⟨str ("user"), str ("hi")⟩]) :=
  C8_theorem (fun _ => [[7]]) [str ("ok.")] [] (str ("boom")) (str ("hi")) 1
    (by decide)

/-- Reply-text or audio frames (the frames the claim orders after the
final transcript). -/
def isReplyOrAudio : Frame → Bool
  | Frame.responseText _ _ => true
  | Frame.audio _ => true
  | _ => false

lemma audioFrames_append (a b : List Frame) :
    audioFrames (a ++ b) = audioFrames a ++ audioFrames b := by
  simp [audioFrames, List.filterMap_append]

lemma audioFrames_render (items : List Item)
    (ha : ∀ a, Item.audio a ∈ items → a ≠ []) :
    audioFrames (items.flatMap renderItem) = audioItems items := by
  induction items with
  | nil => rfl
  | cons i rest ih =>
    have ih' := ih (fun a hmem => ha a (List.mem_cons_of_mem _ hmem))
    rw [List.flatMap_cons, audioFrames_append, ih']
    cases i with
    | text s =>
      by_cases hs : s = [] <;>
        simp [renderItem, hs, audioFrames, audioItems, List.filterMap_cons]
    | audio a =>
      have hne : a ≠ [] := ha a (List.mem_cons_self _ _)
      simp [renderItem, hne, audioFrames, audioItems, List.filterMap_cons]

lemma mem_render {items : List Item} {f : Frame}
    (hf : f ∈ items.flatMap renderItem) :
    (∃ s, f = Frame.responseText s false) ∨ ∃ a, f = Frame.audio a := by
  induction items with
  | nil => simp at hf
  | cons i rest ih =>
    rw [List.flatMap_cons, List.mem_append] at hf
    rcases hf with hf | hf
    · cases i with
      | text s =>
        by_cases hs : s = []
        · simp [renderItem, hs] at hf
        · left
          refine ⟨s, ?_⟩
          simpa [renderItem, hs] using hf
      | audio a =>
        by_cases hc : a = []
        · simp [renderItem, hc] at hf
        · right
          refine ⟨a, ?_⟩
          simpa [renderItem, hc] using hf
    · exact ih hf

lemma streamRun_audio_mem (tts : Str → List (List Nat)) (chunks : List Str) :
    ∀ buf a, Item.audio a ∈ streamRun tts buf chunks → ∃ s, a ∈ tts s := by
  induction chunks with
  | nil =>
    intro buf a ha
    by_cases h : strip buf = []
    · simp [streamRun, h] at ha
    · simp only [streamRun, if_neg h] at ha
      obtain ⟨x, hx, hax⟩ := List.mem_map.mp ha
      obtain rfl : x = a := by simpa using hax
      refine ⟨strip buf, ?_⟩
      rw [ttsEmit, if_neg h] at hx
      exact hx
  | cons c cs ih =>
    intro buf a ha
    rcases hp : processChunk buf c with ⟨o, rest⟩
    cases o with
    | none =>
      simp only [streamRun, hp] at ha
      rcases List.mem_cons.mp ha with h1 | h1
      · simp at h1
      · exact ih rest a h1
    | some s =>
      simp only [streamRun, hp] at ha
      rcases List.mem_cons.mp ha with h1 | h1
      · simp at h1
      · rcases List.mem_append.mp h1 with h2 | h2
        · obtain ⟨x, hx, hax⟩ := List.mem_map.mp h2
          obtain rfl : x = a := by simpa using hax
          by_cases hs : s = []
          · rw [ttsEmit, if_pos hs] at hx
            simp at hx
          · rw [ttsEmit, if_neg hs] at hx
            exact ⟨s, hx⟩
        · exact ih rest a h2

/-- C9: in a successful turn with a non-empty transcript (and a TTS
provider whose audio chunks are non-empty, as `aiter_bytes` yields):
(a) the gateway emits no interim-transcript frames at all — every
transcript frame is final, so interim-before-final ordering holds
vacuously; (b) the final-transcript frame precedes every reply-text-chunk
and every audio-chunk frame; (c) the audio chunks appear grouped sentence
by sentence, in sentence submission order: the audio subsequence of the
frames equals the per-sentence TTS outputs concatenated in order. -/
theorem C9_theorem (tts : Str → List (List Nat)) (t : Str)
    (chunks : List Str) (hist : List ChatMsg) (h : strip t ≠ [])
    (htts : ∀ s a, a ∈ tts s → a ≠ []) :
    (∀ s b, Frame.transcript s b ∈
        (runTurn tts (Except.ok t) chunks none hist).frames → b = true) ∧
    (∀ j : Nat, isReplyOrAudio
        ((runTurn tts (Except.ok t) chunks none hist).frames.getD j
          Frame.statusAsr) = true →
      ∃ i, i < j ∧
        (runTurn tts (Except.ok t) chunks none hist).frames.getD i
          Frame.statusAsr = Frame.transcript t true) ∧
    audioFrames (runTurn tts (Except.ok t) chunks none hist).frames =
      (sentRun [] chunks).flatMap (ttsEmit tts) := by
  have hframes : (runTurn tts (Except.ok t) chunks none hist).frames =
      [Frame.statusAsr, Frame.transcript t true, Frame.statusLlm] ++
        ((streamRun tts [] chunks).flatMap renderItem) ++
        [Frame.responseText [] true, Frame.statusIdle] := by
    simp only [runTurn]
    rw [if_neg h]
  refine ⟨?_, ?_, ?_⟩
  · intro s b hmem
    rw [hframes] at hmem
    simp only [List.cons_append, List.nil_append, List.mem_cons,
      List.mem_append] at hmem
    rcases hmem with h1 | h1 | h1 | h1 | h1 | h1
    · simp at h1
    · exact (Frame.transcript.injEq .. ▸ h1).2
    · simp at h1
    · rcases mem_render h1 with ⟨s', hs'⟩ | ⟨a, ha⟩
      · simp at hs'
      · simp at ha
    · simp at h1
    · simp at h1
  · intro j hj
    rw [hframes] at hj ⊢
    simp only [List.cons_append, List.nil_append] at hj ⊢
    match j, hj with
    | 0, hj => simp [List.getD_cons_zero, isReplyOrAudio] at hj
    | 1, hj => simp [List.getD_cons_succ, List.getD_cons_zero, isReplyOrAudio] at hj
    | 2, hj => simp [List.getD_cons_succ, List.getD_cons_zero, isReplyOrAudio] at hj
    | (k + 3), hj =>
      exact ⟨1, by omega, by simp [List.getD_cons_succ, List.getD_cons_zero]⟩
  · rw [hframes]
    have hhead : audioFrames
        [Frame.statusAsr, Frame.transcript t true, Frame.statusLlm] = [] := by
      simp [audioFrames]
    have htail : audioFrames
        [Frame.responseText [] true, Frame.statusIdle] = [] := by
      simp [audioFrames]
    have hne : ∀ a, Item.audio a ∈ streamRun tts [] chunks → a ≠ [] := by
      intro a hmem
      obtain ⟨s, hs⟩ := streamRun_audio_mem tts chunks [] a hmem
      exact htts s a hs
    rw [audioFrames_append, audioFrames_append, hhead, htail,
      audioFrames_render _ hne, streamRun_audio]
    simp

/-- C9 witness: the three ordering properties at a concrete turn
(transcript "hi", chunks ["ok."], one audio chunk per sentence). -/
theorem C9_witness :
    (∀ s b, Frame.transcript s b ∈
        (runTurn (fun _ => [[1]]) (Except.ok (str ("hi"))) [str ("ok.")] none
          []).frames → b = true) ∧
    (∀ j : Nat, isReplyOrAudio
        ((runTurn (fun _ => [[1]]) (Except.ok (str ("hi"))) [str ("ok.")] none
          []).frames.getD j Frame.statusAsr) = true →
      ∃ i, i < j ∧
        (runTurn (fun _ => [[1]]) (Except.ok (str ("hi"))) [str ("ok.")] none
          []).frames.getD i Frame.statusAsr = Frame.transcript (str ("hi")) true) ∧
    audioFrames (runTurn (fun _ => [[1]]) (Except.ok (str ("hi")))
        [str ("ok.")] none []).frames =
      (sentRun [] [str ("ok.")]).flatMap (ttsEmit (fun _ => [[1]])) :=
  C9_theorem (fun _ => [[1]]) (str ("hi")) [str ("ok.")] [] (by decide)
    (fun s a ha => by
      rw [List.mem_singleton.mp ha]
      decide)

/-- C10: `AggregateStats.from_values` is total and in-bounds: for the
empty list it returns the all-zero record rather than failing, and for
every non-empty list the three percentile positions `int(n*0.90)`,
`int(n*0.95)`, `int(n*0.99)` used to index the sorted list are strictly
less than `n` (for `n = 1` the code indexes position 0 directly, which the
bound also covers). -/
theorem C10_theorem (values : List ℚ) (h : values ≠ []) :
    AggregateStats.from_values [] = AggregateStats.zero ∧
    pctIdx values.length 90 < values.length ∧
    pctIdx values.length 95 < values.length ∧
    pctIdx values.length 99 < values.length := by
  have hn : 0 < values.length := List.length_pos.mpr h
  refine ⟨by simp [AggregateStats.from_values], ?_, ?_, ?_⟩ <;>
    · rw [pctIdx, Nat.div_lt_iff_lt_mul (by norm_num)]
      omega

/-- C10 witness: the totality and bounds at the concrete list [1, 2, 3]. -/
theorem C10_witness :
    AggregateStats.from_values [] = AggregateStats.zero ∧
    pctIdx ([1, 2, 3] : List ℚ).length 90 < ([1, 2, 3] : List ℚ).length ∧
    pctIdx ([1, 2, 3] : List ℚ).length 95 < ([1, 2, 3] : List ℚ).length ∧
    pctIdx ([1, 2, 3] : List ℚ).length 99 < ([1, 2, 3] : List ℚ).length :=
  C10_theorem [1, 2, 3] (List.cons_ne_nil 1 [2, 3])
